import Mathlib

/-!
Shallow embedding of the Difuser audio plugin core
(`Source/PluginProcessor.cpp` / `Source/PluginProcessor.h`).

Float samples are modelled as exact rationals (`ℚ`); the decibel
conversion (`juce::Decibels::gainToDecibels`, a base-10 logarithm) is
modelled over the reals.  C++ `static_cast<int>` on a float is
truncation toward zero, modelled by `cppTrunc`.  Integer arithmetic of
the source (`stage / densitySafe`, `densitySafe / N_STAGES`) is kept as
truncating integer division.
-/

namespace Difuser

/-- C++ `static_cast<int>` applied to a real-valued quantity: truncation
toward zero (floor for non-negative values, `-⌊-q⌋ = ⌈q⌉` for negatives). -/
def cppTrunc (q : ℚ) : ℤ := if 0 ≤ q then ⌊q⌋ else -⌊-q⌋

/-- Model of `CircularBuffer`: member fields `m_buffer`, `m_head`, `m_size`
of the C++ class. -/
structure CircularBuffer where
  buffer : List ℚ
  head : ℕ
  size : ℕ
  deriving DecidableEq, Repr

/-- Model of `CircularBuffer::Init(size)` followed by `Clear()`: `m_head = 0`,
`m_size = size`, all stored samples zero. -/
def CircularBuffer.cleared (size : ℕ) : CircularBuffer :=
  ⟨List.replicate size 0, 0, size⟩

/-- Model of `CircularBuffer::WriteSample(sample)`: store at `m_head`, advance the
head, wrapping to 0 when it reaches `m_size`. -/
def CircularBuffer.WriteSample (cb : CircularBuffer) (sample : ℚ) : CircularBuffer :=
  ⟨cb.buffer.set cb.head sample,
   if cb.head + 1 ≥ cb.size then 0 else cb.head + 1,
   cb.size⟩

/-- Model of `juce::AudioBuffer::getSample` at a (possibly signed) index.  The C++
call is only defined for indices in `[0, size)`; out-of-range access is
modelled by the junk value 0. -/
def CircularBuffer.getSampleZ (cb : CircularBuffer) (i : ℤ) : ℚ :=
  if 0 ≤ i then cb.buffer.getD i.toNat 0 else 0

/-- The intermediate index/weight values computed by
`CircularBuffer::ReadDelay`. -/
structure ReadPos where
  iPrev : ℤ
  iNext : ℤ
  weight : ℚ
  deriving DecidableEq, Repr

/-- The index computation of `CircularBuffer::ReadDelay(sample)`:
`readIdx = m_head + bufferSize - sample`, `flr = (int) readIdx`,
`iPrev = flr < bufferSize ? flr : flr - bufferSize`,
`iNext = flr + 1` wrapped the same way, `weight = readIdx - flr`. -/
def CircularBuffer.readIndices (cb : CircularBuffer) (sample : ℚ) : ReadPos :=
  let readIdx : ℚ := (cb.head : ℚ) + (cb.size : ℚ) - sample
  let flr : ℤ := cppTrunc readIdx
  let iPrev : ℤ := if flr < (cb.size : ℤ) then flr else flr - (cb.size : ℤ)
  let iNext0 : ℤ := flr + 1
  let iNext : ℤ := if iNext0 < (cb.size : ℤ) then iNext0 else iNext0 - (cb.size : ℤ)
  ⟨iPrev, iNext, readIdx - (flr : ℚ)⟩

/-- Model of `CircularBuffer::ReadDelay(sample)`: linear interpolation between the
two ring slots around the fractional read position. -/
def CircularBuffer.ReadDelay (cb : CircularBuffer) (sample : ℚ) : ℚ :=
  let r := cb.readIndices sample
  cb.getSampleZ r.iPrev * (1 - r.weight) + cb.getSampleZ r.iNext * r.weight

/-- The delay used by `CircularBuffer::ReadFactor(factor)`:
`2.0f + m_size * factor * 0.98f`. -/
def CircularBuffer.factorDelay (cb : CircularBuffer) (factor : ℚ) : ℚ :=
  2 + (cb.size : ℚ) * factor * (49/50)

/-- Model of `CircularBuffer::ReadFactor(factor)`. -/
def CircularBuffer.ReadFactor (cb : CircularBuffer) (factor : ℚ) : ℚ :=
  cb.ReadDelay (cb.factorDelay factor)

/-- The constant `DelayLineDifuser::N_DELAY_LINES`. -/
def N_DELAY_LINES : ℕ := 4

/-- The constant `DelayLineDifuser::N_STAGES`. -/
def N_STAGES : ℕ := 8

/-- The state of `DelayLineDifuser`: the array
`CircularBuffer m_buffer[N_STAGES][N_DELAY_LINES]`, indexed as
`m_buffer stage delayLine` (meaningful for `stage < 8`, `delayLine < 4`). -/
abbrev DifuserState := ℕ → ℕ → CircularBuffer

/-- The density clamp at the top of `DelayLineDifuser::ProcessSample`:
`densitySafe` is `density` clamped into `[2, N_STAGES]`. -/
def densityClamp (density : ℤ) : ℤ :=
  let d1 := if density > (N_STAGES : ℤ) then (N_STAGES : ℤ) else density
  if d1 < 2 then 2 else d1

/-- The dry-bleed coefficient computed inside the stage loop:
`(1.0f - stage / densitySafe) * 0.5f`, where `stage / densitySafe` is a
C++ integer division. -/
def dryMixCode (stage densitySafe : ℕ) : ℚ :=
  (1 - ((stage / densitySafe : ℕ) : ℚ)) * (1/2)

/-- The final output scale of `DelayLineDifuser::ProcessSample`:
`1.0f - (densitySafe / N_STAGES) * 0.75f`, where `densitySafe / N_STAGES`
is a C++ integer division. -/
def outScale (densitySafe : ℕ) : ℚ :=
  1 - ((densitySafe / N_STAGES : ℕ) : ℚ) * (3/4)

/-- The four per-line values `delayIn[0..3]` (or `delayOut[0..3]`). -/
structure Vec4 where
  v0 : ℚ
  v1 : ℚ
  v2 : ℚ
  v3 : ℚ
  deriving DecidableEq, Repr

/-- One iteration of the stage loop of `DelayLineDifuser::ProcessSample`:
write `delayIn` into the four lines of `stage`, read each line back via
`ReadFactor`, and form the next `delayIn` from the butterfly plus the dry
bleed `dryMix * inSample`. -/
def processStage (inSample factor : ℚ) (densitySafe stage : ℕ)
    (st : DifuserState) (delayIn : Vec4) : DifuserState × Vec4 :=
  let b0 := (st stage 0).WriteSample delayIn.v0
  let b1 := (st stage 1).WriteSample delayIn.v1
  let b2 := (st stage 2).WriteSample delayIn.v2
  let b3 := (st stage 3).WriteSample delayIn.v3
  let o0 := b0.ReadFactor factor
  let o1 := b1.ReadFactor factor
  let o2 := b2.ReadFactor factor
  let o3 := b3.ReadFactor factor
  let st' : DifuserState := fun s l =>
    if s = stage then
      (if l = 0 then b0 else if l = 1 then b1 else if l = 2 then b2
       else if l = 3 then b3 else st s l)
    else st s l
  let dryMix := dryMixCode stage densitySafe
  let delayIn' : Vec4 :=
    ⟨dryMix * inSample + o0 + o1 + o2 + o3,
     dryMix * inSample + o0 - o1 + o2 - o3,
     dryMix * inSample + o0 + o1 - o2 - o3,
     dryMix * inSample + o0 - o1 - o2 + o3⟩
  (st', delayIn')

/-- The stage loop `for (stage = 0; stage < densitySafe; stage++)` of
`DelayLineDifuser::ProcessSample`, as recursion on the number of
remaining iterations: `stageLoop inS f ds stage fuel acc` runs the loop
body for stage indices `stage, stage+1, …, stage+fuel-1`. -/
def stageLoop (inSample factor : ℚ) (densitySafe : ℕ) :
    ℕ → ℕ → DifuserState × Vec4 → DifuserState × Vec4
  | _, 0, acc => acc
  | stage, fuel + 1, acc =>
    stageLoop inSample factor densitySafe (stage + 1) fuel
      (processStage inSample factor densitySafe stage acc.1 acc.2)

/-- Model of `DelayLineDifuser::ProcessSample(inSample, factor, density)`: clamp
the density, seed the four lines from `inSample`, run the active stages
in order, and return the scaled sum together with the updated delay-line
state. -/
def ProcessSample (st : DifuserState) (inSample factor : ℚ) (density : ℤ) :
    ℚ × DifuserState :=
  let densitySafe := (densityClamp density).toNat
  let seed : Vec4 :=
    ⟨(4/5) * inSample, (6/5) * inSample, -inSample - 1/10, -inSample + 1/10⟩
  let res := stageLoop inSample factor densitySafe 0 densitySafe (st, seed)
  ((3/200) * (res.2.v0 + res.2.v1 + res.2.v2 + res.2.v3) * outScale densitySafe,
   res.1)

/-- Model of `EnvelopeFollower` member state, polymorphic so it can be
instantiated at `ℚ` and at `ℝ`. -/
structure EnvelopeFollower (α : Type) where
  m_Envelope : α
  m_AttackCoef : α
  m_ReleaseCoef : α

/-- Model of `EnvelopeFollower::process(in)`: rectify, then one-pole smoothing with
the attack coefficient when rising and the release coefficient otherwise.
Returns the value returned by the C++ function together with the updated
member state. -/
def EnvelopeFollower.process [LinearOrderedField α] (e : EnvelopeFollower α)
    (inp : α) : α × EnvelopeFollower α :=
  let tmp := |inp|
  if e.m_Envelope < tmp then
    (tmp + e.m_AttackCoef * (e.m_Envelope - tmp),
     ⟨tmp + e.m_AttackCoef * (e.m_Envelope - tmp), e.m_AttackCoef, e.m_ReleaseCoef⟩)
  else
    (tmp + e.m_ReleaseCoef * (e.m_Envelope - tmp),
     ⟨tmp + e.m_ReleaseCoef * (e.m_Envelope - tmp), e.m_AttackCoef, e.m_ReleaseCoef⟩)

/-- The dynamic mix ratio of `DifuserAudioProcessor::processBlock`:
`envelopedB > thresholddB ? fminf((envelopedB - thresholddB) / 12.0f, 1.0f) : 0.0f`. -/
def dynamicMixCalc [LinearOrderedField α] (envelopedB thresholddB : α) : α :=
  if thresholddB < envelopedB then min ((envelopedB - thresholddB) / 12) 1 else 0

/-- Model of `juce::Decibels::gainToDecibels(gain)` with the default
`minusInfinityDb = -100`: `20 * log10 gain` for positive gain, floored at
`-100`. -/
noncomputable def gainToDecibels (gain : ℝ) : ℝ :=
  if 0 < gain then max (-100) (Real.log gain / Real.log 10 * 20) else -100

/-- The per-channel state used by `DifuserAudioProcessor::processBlock`:
one `DelayLineDifuser` and one `EnvelopeFollower`. -/
structure ChannelState where
  difuser : DifuserState
  env : EnvelopeFollower ℝ

/-- The per-block scalar parameters read at the top of `processBlock`
(`volume` is the linear gain `decibelsToGain(volumeParameter)`). -/
structure Params where
  factor : ℚ
  density : ℤ
  mix : ℝ
  volume : ℝ
  thresholddB : ℝ

/-- The per-sample body of the channel loop in
`DifuserAudioProcessor::processBlock`: diffuse, follow the envelope of
the diffused signal in dB, compute the dynamic mix ratio, apply it, then
the static mix and volume. -/
noncomputable def processSampleChannel (p : Params) (cs : ChannelState)
    (inSample : ℚ) : ℝ × ChannelState :=
  let wet := ProcessSample cs.difuser inSample p.factor p.density
  let inDifuse : ℚ := wet.1
  let envStep := cs.env.process (inDifuse : ℝ)
  let envelopedB := gainToDecibels envStep.1
  let dynamicMix := dynamicMixCalc envelopedB p.thresholddB
  let inDifuseDynamic : ℝ :=
    dynamicMix * (inDifuse : ℝ) + (1 - dynamicMix) * (inSample : ℝ)
  (p.volume * (p.mix * inDifuseDynamic + (1 - p.mix) * (inSample : ℝ)),
   ⟨wet.2, envStep.2⟩)

/-- The inner sample loop of `processBlock` for one channel: map the
input block to the output block, threading the channel state. -/
noncomputable def processBlockChannel (p : Params) (cs : ChannelState) :
    List ℚ → List ℝ × ChannelState
  | [] => ([], cs)
  | x :: xs =>
    let r := processSampleChannel p cs x
    let rest := processBlockChannel p r.2 xs
    (r.1 :: rest.1, rest.2)

/-! ## Helper lemmas -/

/-- The clamp `densityClamp` sends everything below 2 to 2. -/
lemma densityClamp_of_lt (d : ℤ) (h : d < 2) : densityClamp d = 2 := by
  simp only [densityClamp, N_STAGES]
  split_ifs <;> omega

/-- The clamp `densityClamp` sends everything above `N_STAGES = 8` to 8. -/
lemma densityClamp_of_gt (d : ℤ) (h : 8 < d) : densityClamp d = 8 := by
  simp only [densityClamp, N_STAGES]
  split_ifs <;> omega

/-- A stage index different from the processed one keeps its buffers. -/
lemma processStage_frame (inSample factor : ℚ) (ds stage : ℕ)
    (st : DifuserState) (din : Vec4) (s l : ℕ) (h : s ≠ stage) :
    (processStage inSample factor ds stage st din).1 s l = st s l := by
  simp only [processStage]
  rw [if_neg h]

/-- The stage loop only touches stage indices in `[stage, stage + fuel)`. -/
lemma stageLoop_frame (inSample factor : ℚ) (ds : ℕ) (s l : ℕ) :
    ∀ (fuel stage : ℕ) (st : DifuserState) (din : Vec4), stage + fuel ≤ s →
      (stageLoop inSample factor ds stage fuel (st, din)).1 s l = st s l := by
  intro fuel
  induction fuel with
  | zero => intro stage st din _; rfl
  | succ n ih =>
    intro stage st din h
    show (stageLoop inSample factor ds (stage + 1) n
      (processStage inSample factor ds stage st din)).1 s l = st s l
    rw [show processStage inSample factor ds stage st din
        = ((processStage inSample factor ds stage st din).1,
           (processStage inSample factor ds stage st din).2) from rfl]
    rw [ih (stage + 1) _ _ (by omega)]
    exact processStage_frame inSample factor ds stage st din s l (by omega)

/-! ## Claims -/

/-- C1: the spec claims the dry bleed equals `(1 − s/density) · 0.5` under
real division and strictly decreases with the stage index.  The code
computes `stage / densitySafe` with C++ integer division, which is 0 for
every active stage, so the dry bleed is constantly `0.5`: at density 4 all
four stages get `0.5`, while the claimed formula would give `0.375` at
stage 1 and `0.125` at stage 3. -/
theorem dryMix_constant_by_integer_division :
    dryMixCode 0 4 = 1/2 ∧ dryMixCode 1 4 = 1/2 ∧ dryMixCode 2 4 = 1/2 ∧
    dryMixCode 3 4 = 1/2 ∧ dryMixCode 1 4 ≠ (1 - (1 : ℚ)/4) * (1/2) ∧
    dryMixCode 3 4 ≠ (1 - (3 : ℚ)/4) * (1/2) := by
  norm_num [dryMixCode]

/-- C2: the spec claims the returned value is scaled by
`1 − (density/8)·0.75` under real division (0.625 at density 4).  The code
computes `densitySafe / N_STAGES` with C++ integer division, which is 0
for density 4, so the scale is 1: on a freshly cleared diffuser (all
capacities 3) with `inSample = 1`, `factor = 0`, `density = 4` the code
returns `0.03 = 0.015 · 2 · 1`, not `0.01875 = 0.015 · 2 · 0.625` as the
claimed formula would give. -/
theorem outScale_integer_division :
    outScale 2 = 1 ∧ outScale 4 = 1 ∧ outScale 7 = 1 ∧ outScale 8 = 1/4 ∧
    (ProcessSample (fun _ _ => CircularBuffer.cleared 3) 1 0 4).1 = 3/100 ∧
    (3/100 : ℚ) ≠ (3/200) * 2 * (1 - (4 : ℚ)/8 * (3/4)) := by
  norm_num [ProcessSample, stageLoop, processStage, densityClamp, dryMixCode,
    outScale, N_STAGES, CircularBuffer.ReadFactor, CircularBuffer.ReadDelay,
    CircularBuffer.readIndices, CircularBuffer.factorDelay, cppTrunc,
    CircularBuffer.getSampleZ, CircularBuffer.WriteSample, CircularBuffer.cleared]
  all_goals simp
  all_goals norm_num

/-- The function `ProcessSample` depends on `density` only through `densityClamp`. -/
lemma processSample_congr_density (st : DifuserState) (inSample factor : ℚ)
    (d1 d2 : ℤ) (h : densityClamp d1 = densityClamp d2) :
    ProcessSample st inSample factor d1 = ProcessSample st inSample factor d2 := by
  unfold ProcessSample
  rw [h]

/-- C5: `ProcessSample` with `density < 2` returns the same value and
final delay-line state as with `density = 2`, and with `density > 8` the
same as with `density = 8` (the density is clamped before any use). -/
theorem processSample_density_clamped (st : DifuserState) (inSample factor : ℚ)
    (d : ℤ) :
    (d < 2 → ProcessSample st inSample factor d = ProcessSample st inSample factor 2) ∧
    (8 < d → ProcessSample st inSample factor d = ProcessSample st inSample factor 8) := by
  constructor
  · intro h
    exact processSample_congr_density st inSample factor d 2
      ((densityClamp_of_lt d h).trans (by simp [densityClamp, N_STAGES]))
  · intro h
    exact processSample_congr_density st inSample factor d 8
      ((densityClamp_of_gt d h).trans (by simp [densityClamp, N_STAGES]))

/-- Witness for C5 at `density = 1` and `density = 9`. -/
theorem processSample_density_clamped_witness :
    ProcessSample (fun _ _ => CircularBuffer.cleared 3) 1 0 1
      = ProcessSample (fun _ _ => CircularBuffer.cleared 3) 1 0 2 ∧
    ProcessSample (fun _ _ => CircularBuffer.cleared 3) 1 0 9
      = ProcessSample (fun _ _ => CircularBuffer.cleared 3) 1 0 8 :=
  ⟨(processSample_density_clamped (fun _ _ => CircularBuffer.cleared 3) 1 0 1).1
      (by norm_num),
   (processSample_density_clamped (fun _ _ => CircularBuffer.cleared 3) 1 0 9).2
      (by norm_num)⟩

/-- C9: the dynamic mix ratio is 0 at or below the threshold, 1 from
12 dB above the threshold on, and linear (`(e − t)/12`) strictly in
between. -/
theorem dynamicMix_knee (e t : ℚ) :
    (e ≤ t → dynamicMixCalc e t = 0) ∧
    (t + 12 ≤ e → dynamicMixCalc e t = 1) ∧
    (t < e → e < t + 12 → dynamicMixCalc e t = (e - t) / 12) := by
  refine ⟨fun h => ?_, fun h => ?_, fun h1 h2 => ?_⟩
  · rw [dynamicMixCalc, if_neg (not_lt.mpr h)]
  · rw [dynamicMixCalc, if_pos (by linarith), min_eq_right (by linarith)]
  · rw [dynamicMixCalc, if_pos h1, min_eq_left (by linarith)]

/-- Witness for C9 at threshold −30 dB: envelope −30 gives 0, −18 gives 1,
−24 gives `(−24 − (−30))/12 = 1/2`. -/
theorem dynamicMix_knee_witness :
    dynamicMixCalc (-30 : ℚ) (-30) = 0 ∧ dynamicMixCalc (-18 : ℚ) (-30) = 1 ∧
    dynamicMixCalc (-24 : ℚ) (-30) = ((-24 : ℚ) - (-30)) / 12 :=
  ⟨(dynamicMix_knee (-30) (-30)).1 (by norm_num),
   (dynamicMix_knee (-18) (-30)).2.1 (by norm_num),
   (dynamicMix_knee (-24) (-30)).2.2 (by norm_num) (by norm_num)⟩

/-- C10: `ProcessSample` leaves every stage at or above the clamped
density untouched: its buffer contents, head and size are exactly as
before the call. -/
theorem processSample_frame (st : DifuserState) (inSample factor : ℚ)
    (d : ℤ) (s l : ℕ) (h : (densityClamp d).toNat ≤ s) :
    (ProcessSample st inSample factor d).2 s l = st s l := by
  unfold ProcessSample
  exact stageLoop_frame inSample factor _ s l _ 0 st _ (by omega)

/-- The truncation `cppTrunc` is the floor on non-negative arguments. -/
lemma cppTrunc_of_nonneg (q : ℚ) (h : 0 ≤ q) : cppTrunc q = ⌊q⌋ := if_pos h

/-- C4 counterexample: with `size = 1`, `head = 0`, `factor = 1` the
`ReadFactor` delay is `2.98`, the raw read index is `-1.98`, C++
truncation gives `-1`, and `iPrev` comes out as `-1`, outside `[0, size)`
(and the weight is `-0.98`, outside `[0, 1]`). -/
theorem readFactor_range_cex :
    ((⟨[0], 0, 1⟩ : CircularBuffer).readIndices
        ((⟨[0], 0, 1⟩ : CircularBuffer).factorDelay 1)).iPrev = -1 ∧
    ¬ (0 ≤ ((⟨[0], 0, 1⟩ : CircularBuffer).readIndices
        ((⟨[0], 0, 1⟩ : CircularBuffer).factorDelay 1)).iPrev) := by
  norm_num [CircularBuffer.readIndices, CircularBuffer.factorDelay, cppTrunc]

/-- C4 (amended): for capacities of at least 100 — `0.02·size ≥ 2`, which
covers the margin claim — every `head < size` and every `factor ∈ [0, 1]`
give a `ReadFactor` read position whose interpolation indices both lie in
`[0, size)` and whose weight lies in `[0, 1]`. -/
theorem readFactor_indices_in_range (b : List ℚ) (N head : ℕ) (f : ℚ)
    (hN : 100 ≤ N) (hh : head < N) (hf0 : 0 ≤ f) (hf1 : f ≤ 1) :
    0 ≤ ((⟨b, head, N⟩ : CircularBuffer).readIndices
          ((⟨b, head, N⟩ : CircularBuffer).factorDelay f)).iPrev ∧
    ((⟨b, head, N⟩ : CircularBuffer).readIndices
          ((⟨b, head, N⟩ : CircularBuffer).factorDelay f)).iPrev < N ∧
    0 ≤ ((⟨b, head, N⟩ : CircularBuffer).readIndices
          ((⟨b, head, N⟩ : CircularBuffer).factorDelay f)).iNext ∧
    ((⟨b, head, N⟩ : CircularBuffer).readIndices
          ((⟨b, head, N⟩ : CircularBuffer).factorDelay f)).iNext < N ∧
    0 ≤ ((⟨b, head, N⟩ : CircularBuffer).readIndices
          ((⟨b, head, N⟩ : CircularBuffer).factorDelay f)).weight ∧
    ((⟨b, head, N⟩ : CircularBuffer).readIndices
          ((⟨b, head, N⟩ : CircularBuffer).factorDelay f)).weight ≤ 1 := by
  have hNq : (100 : ℚ) ≤ (N : ℚ) := by exact_mod_cast hN
  have hhq : (head : ℚ) ≤ (N : ℚ) - 1 := by
    have : (head : ℚ) + 1 ≤ (N : ℚ) := by exact_mod_cast hh
    linarith
  have hprod0 : 0 ≤ (N : ℚ) * f * (49/50) := by positivity
  have hprod1 : (N : ℚ) * f * (49/50) ≤ (N : ℚ) * (49/50) := by
    nlinarith
  set R : ℚ := (head : ℚ) + (N : ℚ) - (2 + (N : ℚ) * f * (49/50)) with hR
  have h0 : 0 ≤ R := by rw [hR]; nlinarith
  have h1 : R ≤ 2 * (N : ℚ) - 3 := by rw [hR]; nlinarith
  have htr : cppTrunc R = ⌊R⌋ := cppTrunc_of_nonneg R h0
  have hfl0 : 0 ≤ ⌊R⌋ := Int.le_floor.mpr (by exact_mod_cast h0)
  have hfl1 : (⌊R⌋ : ℚ) ≤ R := Int.floor_le R
  have hfl2 : R < (⌊R⌋ : ℚ) + 1 := Int.lt_floor_add_one R
  have hflN : ⌊R⌋ ≤ 2 * (N : ℤ) - 3 := by
    have : (⌊R⌋ : ℚ) ≤ 2 * (N : ℚ) - 3 := le_trans hfl1 h1
    exact_mod_cast this
  simp only [CircularBuffer.readIndices, CircularBuffer.factorDelay, ← hR, htr]
  have hN3 : (3 : ℤ) ≤ (N : ℤ) := by exact_mod_cast le_trans (by norm_num) hN
  refine ⟨?_, ?_, ?_, ?_, by linarith, by linarith⟩
  · split_ifs with h <;> omega
  · split_ifs with h <;> omega
  · split_ifs with h <;> omega
  · split_ifs with h <;> omega

/-- Witness for C4 (amended) at `size = 100`, `head = 0`, `factor = 1`. -/
theorem readFactor_indices_in_range_witness :
    0 ≤ ((⟨List.replicate 100 0, 0, 100⟩ : CircularBuffer).readIndices
          ((⟨List.replicate 100 0, 0, 100⟩ : CircularBuffer).factorDelay 1)).iPrev ∧
    ((⟨List.replicate 100 0, 0, 100⟩ : CircularBuffer).readIndices
          ((⟨List.replicate 100 0, 0, 100⟩ : CircularBuffer).factorDelay 1)).iPrev < 100 ∧
    0 ≤ ((⟨List.replicate 100 0, 0, 100⟩ : CircularBuffer).readIndices
          ((⟨List.replicate 100 0, 0, 100⟩ : CircularBuffer).factorDelay 1)).iNext ∧
    ((⟨List.replicate 100 0, 0, 100⟩ : CircularBuffer).readIndices
          ((⟨List.replicate 100 0, 0, 100⟩ : CircularBuffer).factorDelay 1)).iNext < 100 ∧
    0 ≤ ((⟨List.replicate 100 0, 0, 100⟩ : CircularBuffer).readIndices
          ((⟨List.replicate 100 0, 0, 100⟩ : CircularBuffer).factorDelay 1)).weight ∧
    ((⟨List.replicate 100 0, 0, 100⟩ : CircularBuffer).readIndices
          ((⟨List.replicate 100 0, 0, 100⟩ : CircularBuffer).factorDelay 1)).weight ≤ 1 :=
  readFactor_indices_in_range (List.replicate 100 0) 100 0 1
    (by norm_num) (by norm_num) (by norm_num) (by norm_num)

/-- Writing a whole block of samples, one `WriteSample` at a time. -/
def writeList (cb : CircularBuffer) (xs : List ℚ) : CircularBuffer :=
  xs.foldl CircularBuffer.WriteSample cb

/-- Setting the slot just past a prefix replaces the following element. -/
lemma set_append_cons (pre : List ℚ) (a y : ℚ) (t : List ℚ) :
    (pre ++ a :: t).set pre.length y = pre ++ y :: t := by
  induction pre with
  | nil => rfl
  | cons b bs ih => simpa using ih

/-- Filling the cleared ring: after writing `ys` on top of an already
written prefix `pre`, the buffer holds `pre ++ ys` and the head has
advanced accordingly (mod `N`). -/
lemma writeList_fill (N : ℕ) (hN : 1 ≤ N) :
    ∀ (ys pre : List ℚ), pre.length + ys.length = N →
      writeList ⟨pre ++ List.replicate ys.length 0, pre.length % N, N⟩ ys
        = ⟨pre ++ ys, (pre.length + ys.length) % N, N⟩ := by
  intro ys
  induction ys with
  | nil => intro pre h; simp [writeList]
  | cons y t ih =>
    intro pre h
    have hlt : pre.length < N := by
      simp only [List.length_cons] at h; omega
    have hmod : pre.length % N = pre.length := Nat.mod_eq_of_lt hlt
    have hstep : (⟨pre ++ List.replicate (y :: t).length 0, pre.length % N, N⟩ :
        CircularBuffer).WriteSample y
        = ⟨(pre ++ [y]) ++ List.replicate t.length 0, (pre ++ [y]).length % N, N⟩ := by
      simp only [CircularBuffer.WriteSample, List.length_cons, List.replicate_succ,
        hmod]
      refine congrArg₂ (CircularBuffer.mk · · N) ?_ ?_
      · rw [set_append_cons]; simp
      · simp only [List.length_append, List.length_singleton]
        split_ifs with hge
        · have : pre.length + 1 = N := by omega
          simp [this]
        · rw [Nat.mod_eq_of_lt (by omega)]
    have hrec := ih (pre ++ [y]) (by simp at h ⊢; omega)
    calc writeList ⟨pre ++ List.replicate (y :: t).length 0, pre.length % N, N⟩ (y :: t)
        = writeList ((⟨pre ++ List.replicate (y :: t).length 0, pre.length % N, N⟩ :
            CircularBuffer).WriteSample y) t := rfl
      _ = writeList ⟨(pre ++ [y]) ++ List.replicate t.length 0,
            (pre ++ [y]).length % N, N⟩ t := by rw [hstep]
      _ = ⟨(pre ++ [y]) ++ t, ((pre ++ [y]).length + t.length) % N, N⟩ := hrec
      _ = ⟨pre ++ y :: t, (pre.length + (y :: t).length) % N, N⟩ := by
          have harith : (pre ++ [y]).length + t.length
              = pre.length + (y :: t).length := by simp; omega
          rw [harith]
          simp [List.append_assoc]

/-- Writing `N` samples into a cleared ring of capacity `N` fills the
buffer in order and returns the head to 0. -/
lemma writeList_cleared (N : ℕ) (hN : 1 ≤ N) (xs : List ℚ) (hx : xs.length = N) :
    writeList (CircularBuffer.cleared N) xs = ⟨xs, 0, N⟩ := by
  have h := writeList_fill N hN xs [] (by simpa using hx)
  simpa [CircularBuffer.cleared, hx, Nat.mod_self] using h

/-- C6: after `Init(N)` and `Clear()`, writing `N` samples and reading at
an integer delay `d ∈ [1, N−1]` returns exactly the sample written `d`
write-steps before the current head position (`xs[N−d]`), with zero
interpolation error. -/
theorem ring_roundTrip (N d : ℕ) (xs : List ℚ) (hN : 2 ≤ N)
    (hx : xs.length = N) (hd1 : 1 ≤ d) (hd2 : d ≤ N - 1) :
    (writeList (CircularBuffer.cleared N) xs).ReadDelay (d : ℚ)
      = xs.getD (N - d) 0 := by
  rw [writeList_cleared N (by omega) xs hx]
  have hcast : (((0 : ℕ) : ℚ)) + (N : ℚ) - (d : ℚ) = ((N - d : ℕ) : ℚ) := by
    have : d ≤ N := by omega
    push_cast [this]
    ring
  have htr : cppTrunc ((N - d : ℕ) : ℚ) = ((N - d : ℕ) : ℤ) := by
    rw [cppTrunc_of_nonneg _ (by positivity), Int.floor_natCast]
  simp only [CircularBuffer.ReadDelay, CircularBuffer.readIndices, hcast, htr]
  have hlt : ((N - d : ℕ) : ℤ) < (N : ℤ) := by omega
  rw [if_pos hlt]
  have hw : ((N - d : ℕ) : ℚ) - ((((N - d : ℕ) : ℤ)) : ℚ) = 0 := by
    push_cast
    ring
  rw [hw]
  simp only [CircularBuffer.getSampleZ, if_pos (Int.natCast_nonneg (N - d)),
    Int.toNat_natCast]
  ring

/-- Witness for C6: `N = 3`, `xs = [5, 6, 7]`, `d = 1` reads back 7. -/
theorem ring_roundTrip_witness :
    (writeList (CircularBuffer.cleared 3) [5, 6, 7]).ReadDelay (1 : ℚ)
      = ([5, 6, 7] : List ℚ).getD 2 0 :=
  ring_roundTrip 3 1 [5, 6, 7] (by norm_num) (by norm_num) (by norm_num)
    (by norm_num)

/-- C7: for a delay in `[0, size)` strictly between two adjacent
integers, `ReadDelay` returns a value between the two stored samples it
interpolates (inclusive): the result is a convex combination of
`buffer[iPrev]` and `buffer[iNext]`. -/
theorem readDelay_bounded (cb : CircularBuffer) (dly : ℚ)
    (h0 : 0 ≤ dly) (h1 : dly < (cb.size : ℚ))
    (hfrac : ∃ k : ℤ, (k : ℚ) < dly ∧ dly < (k : ℚ) + 1) :
    min (cb.getSampleZ (cb.readIndices dly).iPrev)
        (cb.getSampleZ (cb.readIndices dly).iNext) ≤ cb.ReadDelay dly ∧
    cb.ReadDelay dly ≤ max (cb.getSampleZ (cb.readIndices dly).iPrev)
        (cb.getSampleZ (cb.readIndices dly).iNext) := by
  have hR : 0 ≤ (cb.head : ℚ) + (cb.size : ℚ) - dly := by
    have : (0 : ℚ) ≤ (cb.head : ℚ) := Nat.cast_nonneg _
    linarith
  set R : ℚ := (cb.head : ℚ) + (cb.size : ℚ) - dly with hRdef
  have htr : cppTrunc R = ⌊R⌋ := cppTrunc_of_nonneg R hR
  have hw0 : 0 ≤ R - (⌊R⌋ : ℚ) := by
    have := Int.floor_le R
    linarith
  have hw1 : R - (⌊R⌋ : ℚ) ≤ 1 := by
    have := Int.lt_floor_add_one R
    linarith
  simp only [CircularBuffer.ReadDelay, CircularBuffer.readIndices, ← hRdef, htr]
  set a : ℚ := cb.getSampleZ (if ⌊R⌋ < (cb.size : ℤ) then ⌊R⌋ else ⌊R⌋ - (cb.size : ℤ))
  set b : ℚ := cb.getSampleZ
    (if ⌊R⌋ + 1 < (cb.size : ℤ) then ⌊R⌋ + 1 else ⌊R⌋ + 1 - (cb.size : ℤ))
  set w : ℚ := R - (⌊R⌋ : ℚ)
  constructor
  · have hma : min a b ≤ a := min_le_left a b
    have hmb : min a b ≤ b := min_le_right a b
    nlinarith
  · have hma : a ≤ max a b := le_max_left a b
    have hmb : b ≤ max a b := le_max_right a b
    nlinarith

/-- Witness for C7: ring `[1, 5, 2]`, head 0, size 3, delay `3/2`. -/
theorem readDelay_bounded_witness :
    (0 : ℚ) ≤ 3/2 ∧ (3/2 : ℚ) < ((3 : ℕ) : ℚ) ∧
    ((1 : ℚ) < 3/2 ∧ (3/2 : ℚ) < (1 : ℚ) + 1) ∧
    (min ((⟨[1, 5, 2], 0, 3⟩ : CircularBuffer).getSampleZ
          ((⟨[1, 5, 2], 0, 3⟩ : CircularBuffer).readIndices (3/2)).iPrev)
        ((⟨[1, 5, 2], 0, 3⟩ : CircularBuffer).getSampleZ
          ((⟨[1, 5, 2], 0, 3⟩ : CircularBuffer).readIndices (3/2)).iNext)
        ≤ (⟨[1, 5, 2], 0, 3⟩ : CircularBuffer).ReadDelay (3/2) ∧
      (⟨[1, 5, 2], 0, 3⟩ : CircularBuffer).ReadDelay (3/2)
        ≤ max ((⟨[1, 5, 2], 0, 3⟩ : CircularBuffer).getSampleZ
          ((⟨[1, 5, 2], 0, 3⟩ : CircularBuffer).readIndices (3/2)).iPrev)
        ((⟨[1, 5, 2], 0, 3⟩ : CircularBuffer).getSampleZ
          ((⟨[1, 5, 2], 0, 3⟩ : CircularBuffer).readIndices (3/2)).iNext)) :=
  ⟨by norm_num, by norm_num, ⟨by norm_num, by norm_num⟩,
   readDelay_bounded ⟨[1, 5, 2], 0, 3⟩ (3/2) (by norm_num) (by norm_num)
     ⟨1, by norm_num, by norm_num⟩⟩

/-- The envelope state after `n` calls of `EnvelopeFollower::process`
with the constant input `A`, starting from a reset envelope. -/
noncomputable def envAttackState (A a r : ℝ) : ℕ → EnvelopeFollower ℝ
  | 0 => ⟨0, a, r⟩
  | n + 1 => ((envAttackState A a r n).process A).2

/-- Closed form of the attack iteration: the envelope after `n` steps is
`A − A·aⁿ` (the attack branch fires at every step). -/
lemma envAttackState_closedForm (A a r : ℝ) (hA : 0 < A) (ha0 : 0 < a)
    (ha1 : a < 1) : ∀ n, envAttackState A a r n = ⟨A - A * a ^ n, a, r⟩ := by
  intro n
  induction n with
  | zero => simp [envAttackState]
  | succ n ih =>
    have hpow : 0 < A * a ^ n := by positivity
    show ((envAttackState A a r n).process A).2 = _
    rw [ih]
    simp only [EnvelopeFollower.process, abs_of_pos hA]
    rw [if_pos (by linarith)]
    have : A + a * (A - A * a ^ n - A) = A - A * a ^ (n + 1) := by ring
    simp only [this]

/-- C8: with a positive constant input `A` and attack/release coefficients
in `(0, 1)` (as `SetCoef` produces for positive times and rate), repeated
`EnvelopeFollower::process` calls from a reset envelope produce a strictly
increasing envelope sequence, always strictly below `A`, converging to
`A`. -/
theorem envelope_monotone_attack (A a r : ℝ) (hA : 0 < A) (ha0 : 0 < a)
    (ha1 : a < 1) (hr0 : 0 < r) (hr1 : r < 1) :
    StrictMono (fun n => (envAttackState A a r n).m_Envelope) ∧
    (∀ n, (envAttackState A a r n).m_Envelope < A) ∧
    Filter.Tendsto (fun n => (envAttackState A a r n).m_Envelope)
      Filter.atTop (nhds A) := by
  have hcf := envAttackState_closedForm A a r hA ha0 ha1
  have hval : ∀ n, (envAttackState A a r n).m_Envelope = A - A * a ^ n := by
    intro n
    rw [hcf n]
  refine ⟨?_, ?_, ?_⟩
  · apply strictMono_nat_of_lt_succ
    intro n
    rw [hval n, hval (n + 1)]
    have h1 : a ^ (n + 1) < a ^ n := by
      rw [pow_succ]
      nlinarith [pow_pos ha0 n]
    nlinarith [pow_pos ha0 n]
  · intro n
    rw [hval n]
    nlinarith [pow_pos ha0 n]
  · have hlim : Filter.Tendsto (fun n : ℕ => a ^ n) Filter.atTop (nhds 0) :=
      tendsto_pow_atTop_nhds_zero_of_lt_one (le_of_lt ha0) ha1
    have : Filter.Tendsto (fun n : ℕ => A - A * a ^ n) Filter.atTop
        (nhds (A - A * 0)) := Filter.Tendsto.sub tendsto_const_nhds
      (Filter.Tendsto.const_mul A hlim)
    simp only [mul_zero, sub_zero] at this
    have hfun : (fun n => (envAttackState A a r n).m_Envelope)
        = fun n : ℕ => A - A * a ^ n := by
      funext n
      exact hval n
    rw [hfun]
    exact this

/-- Witness for C8 at `A = 1`, `attackCoef = 1/2`, `releaseCoef = 1/2`. -/
theorem envelope_monotone_attack_witness :
    StrictMono (fun n => (envAttackState 1 (1/2) (1/2) n).m_Envelope) ∧
    (∀ n, (envAttackState 1 (1/2) (1/2) n).m_Envelope < 1) ∧
    Filter.Tendsto (fun n => (envAttackState 1 (1/2) (1/2) n).m_Envelope)
      Filter.atTop (nhds 1) :=
  envelope_monotone_attack 1 (1/2) (1/2) (by norm_num) (by norm_num)
    (by norm_num) (by norm_num) (by norm_num)

/-- The clamped density always lies in `[2, 8]`. -/
lemma densityClamp_bounds (d : ℤ) : 2 ≤ densityClamp d ∧ densityClamp d ≤ 8 := by
  simp only [densityClamp, N_STAGES]
  split_ifs <;> omega

/-- A cleared ring with one slot overwritten still reads 0 everywhere
else (all other entries and the out-of-range default are 0). -/
lemma getD_set_zero_replicate (n m : ℕ) (v : ℚ) (hm : m ≠ 0) :
    ((List.replicate n (0 : ℚ)).set 0 v).getD m 0 = 0 := by
  cases n with
  | zero => simp [List.getD]
  | succ k =>
    cases m with
    | zero => exact absurd rfl hm
    | succ j =>
      simp only [List.replicate_succ, List.set_cons_zero, List.getD_cons_succ]
      rw [List.getD_eq_getElem?_getD, List.getElem?_replicate]
      split_ifs <;> rfl

/-- Write-then-`ReadFactor` on a cleared line returns 0 whenever the
capacity margin `size · (1 − 0.98 · factor) ≥ 2` holds: the read lands
strictly behind the slot just written, on still-zero samples. -/
lemma readFactor_write_cleared (n : ℕ) (v f : ℚ) (hf : 0 ≤ f)
    (hcond : 2 ≤ (n : ℚ) * (1 - 49/50 * f)) :
    ((CircularBuffer.cleared n).WriteSample v).ReadFactor f = 0 := by
  have hn0 : (0 : ℚ) ≤ (n : ℚ) := Nat.cast_nonneg n
  have hfle : (n : ℚ) * (1 - 49/50 * f) ≤ (n : ℚ) := by nlinarith
  have hn2 : 2 ≤ n := by exact_mod_cast le_trans hcond hfle
  have hwrite : (CircularBuffer.cleared n).WriteSample v
      = ⟨(List.replicate n 0).set 0 v, 1, n⟩ := by
    simp only [CircularBuffer.cleared, CircularBuffer.WriteSample]
    rw [if_neg (by omega)]
  rw [hwrite]
  have hprod0 : 0 ≤ (n : ℚ) * f * (49/50) := by positivity
  set R : ℚ := ((1 : ℕ) : ℚ) + (n : ℚ) - (2 + (n : ℚ) * f * (49/50)) with hRdef
  have hR1 : 1 ≤ R := by rw [hRdef]; push_cast; nlinarith
  have hR2 : R ≤ (n : ℚ) - 1 := by rw [hRdef]; push_cast; nlinarith
  have htr : cppTrunc R = ⌊R⌋ := cppTrunc_of_nonneg R (by linarith)
  have hfl1 : 1 ≤ ⌊R⌋ := Int.le_floor.mpr (by exact_mod_cast hR1)
  have hflle : (⌊R⌋ : ℚ) ≤ R := Int.floor_le R
  have hflup : ⌊R⌋ ≤ (n : ℤ) - 1 := by
    have : (⌊R⌋ : ℚ) ≤ (n : ℚ) - 1 := le_trans hflle hR2
    exact_mod_cast this
  simp only [CircularBuffer.ReadFactor, CircularBuffer.factorDelay,
    CircularBuffer.ReadDelay, CircularBuffer.readIndices, ← hRdef, htr]
  rw [if_pos (by omega : ⌊R⌋ < (n : ℤ))]
  have hprev : CircularBuffer.getSampleZ ⟨(List.replicate n 0).set 0 v, 1, n⟩ ⌊R⌋
      = 0 := by
    simp only [CircularBuffer.getSampleZ, if_pos (by omega : (0 : ℤ) ≤ ⌊R⌋)]
    exact getD_set_zero_replicate n _ v (by omega)
  rw [hprev]
  by_cases hnext : ⌊R⌋ + 1 < (n : ℤ)
  · rw [if_pos hnext]
    have : CircularBuffer.getSampleZ ⟨(List.replicate n 0).set 0 v, 1, n⟩ (⌊R⌋ + 1)
        = 0 := by
      simp only [CircularBuffer.getSampleZ, if_pos (by omega : (0 : ℤ) ≤ ⌊R⌋ + 1)]
      exact getD_set_zero_replicate n _ v (by omega)
    rw [this]
    ring
  · rw [if_neg hnext]
    have hfleq : ⌊R⌋ = (n : ℤ) - 1 := by omega
    have hw0 : R - (⌊R⌋ : ℚ) = 0 := by
      have : (⌊R⌋ : ℚ) = (n : ℚ) - 1 := by exact_mod_cast hfleq
      linarith
    rw [hw0]
    ring

/-- A delay line of `st` satisfies the "cleared with safe margin"
condition for read factor `f`. -/
def ClearedMargin (f : ℚ) (cb : CircularBuffer) : Prop :=
  ∃ n, cb = CircularBuffer.cleared n ∧ 2 ≤ (n : ℚ) * (1 - 49/50 * f)

/-- A stage whose four lines are cleared with safe margin outputs the
zero vector when the input sample is 0. -/
lemma processStage_zero (f : ℚ) (hf : 0 ≤ f) (ds stage : ℕ)
    (st : DifuserState) (din : Vec4)
    (hst : ∀ l, l < 4 → ClearedMargin f (st stage l)) :
    (processStage 0 f ds stage st din).2 = ⟨0, 0, 0, 0⟩ := by
  obtain ⟨n0, he0, hc0⟩ := hst 0 (by norm_num)
  obtain ⟨n1, he1, hc1⟩ := hst 1 (by norm_num)
  obtain ⟨n2, he2, hc2⟩ := hst 2 (by norm_num)
  obtain ⟨n3, he3, hc3⟩ := hst 3 (by norm_num)
  simp only [processStage, he0, he1, he2, he3,
    readFactor_write_cleared n0 _ f hf hc0,
    readFactor_write_cleared n1 _ f hf hc1,
    readFactor_write_cleared n2 _ f hf hc2,
    readFactor_write_cleared n3 _ f hf hc3]
  simp

/-- Running the stage loop on zero input leaves a zero line vector as
long as every visited stage is cleared with safe margin. -/
lemma stageLoop_zero (f : ℚ) (hf : 0 ≤ f) (ds : ℕ) :
    ∀ (fuel stage : ℕ) (st : DifuserState) (din : Vec4),
      (∀ s l, stage ≤ s → s < stage + fuel → l < 4 → ClearedMargin f (st s l)) →
      1 ≤ fuel →
      (stageLoop 0 f ds stage fuel (st, din)).2 = ⟨0, 0, 0, 0⟩ := by
  intro fuel
  induction fuel with
  | zero => intro stage st din _ h; omega
  | succ m ih =>
    intro stage st din hst _
    show (stageLoop 0 f ds (stage + 1) m
      (processStage 0 f ds stage st din)).2 = ⟨0, 0, 0, 0⟩
    have hcur : ∀ l, l < 4 → ClearedMargin f (st stage l) := fun l hl =>
      hst stage l (le_refl stage) (by omega) hl
    cases m with
    | zero => exact processStage_zero f hf ds stage st din hcur
    | succ k =>
      rw [show processStage 0 f ds stage st din
          = ((processStage 0 f ds stage st din).1,
             (processStage 0 f ds stage st din).2) from rfl]
      apply ih (stage + 1)
      · intro s l hs1 hs2 hl
        rw [processStage_frame 0 f ds stage st din s l (by omega)]
        exact hst s l (by omega) (by omega) hl
      · omega

/-- The function `ProcessSample` on a zero input sample returns 0 when every active
stage's lines are cleared with safe margin. -/
lemma processSample_zero_first (st : DifuserState) (f : ℚ) (d : ℤ)
    (hf : 0 ≤ f)
    (hst : ∀ s l, s < (densityClamp d).toNat → l < 4 → ClearedMargin f (st s l)) :
    (ProcessSample st 0 f d).1 = 0 := by
  have hds := densityClamp_bounds d
  simp only [ProcessSample]
  rw [stageLoop_zero f hf _ _ 0 st _ (fun s l h1 h2 hl => hst s l (by omega) hl)
    (by omega)]
  ring

/-- C3 (amended): with `Clear()` called beforehand and a zero input
sample, the first output sample of the channel pipeline is 0 for every
parameter configuration, provided each active line's capacity `n`
satisfies the margin `n · (1 − 0.98 · factor) ≥ 2` (at `factor = 0` this
is just capacity ≥ 2).  For longer all-zero blocks the output is *not*
all-zero in general: the constant seed offsets `−in − 0.1`, `−in + 0.1`
inject ±0.1 into the lines even at `in = 0` (see the counterexample). -/
theorem silence_first_sample_zero (p : Params) (st : DifuserState)
    (e : EnvelopeFollower ℝ) (hf : 0 ≤ p.factor)
    (hst : ∀ s l, s < (densityClamp p.density).toNat → l < 4 →
      ClearedMargin p.factor (st s l)) :
    (processSampleChannel p ⟨st, e⟩ 0).1 = 0 := by
  simp only [processSampleChannel]
  rw [processSample_zero_first st p.factor p.density hf hst]
  push_cast
  ring

/-- Witness for C3 (amended): all capacities 3, `factor = 0`,
`density = 4`, `mix = 1/2`, `volume = 1`, `threshold = −30`. -/
theorem silence_first_sample_zero_witness :
    (processSampleChannel ⟨0, 4, 1/2, 1, -30⟩
      ⟨fun _ _ => CircularBuffer.cleared 3, ⟨0, 0, 0⟩⟩ 0).1 = 0 :=
  silence_first_sample_zero ⟨0, 4, 1/2, 1, -30⟩
    (fun _ _ => CircularBuffer.cleared 3) ⟨0, 0, 0⟩ (by norm_num)
    (fun s l _ _ => ⟨3, rfl, by norm_num⟩)

/-- Concrete configuration refuting silence-in/silence-out: line
capacities `(4, 4, 4, 8)` per stage, `factor = 25/98` (so each line's
`ReadFactor` delay is `2 + size/4`, an exact integer), `density = 2`,
`mix = 1`, `volume = 1` (0 dB), `threshold = −60` dB. -/
def cexSilenceDifuser : DifuserState :=
  fun _ l => CircularBuffer.cleared (if l = 3 then 8 else 4)

/-- Parameters of the silence counterexample. -/
def cexSilenceParams : Params := ⟨25/98, 2, 1, 1, -60⟩

/-- Channel state of the silence counterexample: cleared delay lines,
reset envelope (coefficient fields 0, i.e. instantaneous follower). -/
def cexSilenceState : ChannelState := ⟨cexSilenceDifuser, ⟨0, 0, 0⟩⟩

/-- The wet (diffused) samples produced by the first five zero inputs in
the counterexample configuration: four zeros, then `−0.006`: the ±0.1
seed offsets travel through stage 0 (line lags 3 and 5) and stage 1 and
reach the output sum at the fifth sample. -/
lemma cexSilence_wets :
    (ProcessSample cexSilenceDifuser 0 (25/98) 2).1 = 0 ∧
    (ProcessSample (ProcessSample cexSilenceDifuser 0 (25/98) 2).2
      0 (25/98) 2).1 = 0 ∧
    (ProcessSample (ProcessSample (ProcessSample cexSilenceDifuser 0 (25/98) 2).2
      0 (25/98) 2).2 0 (25/98) 2).1 = 0 ∧
    (ProcessSample (ProcessSample (ProcessSample
      (ProcessSample cexSilenceDifuser 0 (25/98) 2).2
      0 (25/98) 2).2 0 (25/98) 2).2 0 (25/98) 2).1 = 0 ∧
    (ProcessSample (ProcessSample (ProcessSample (ProcessSample
      (ProcessSample cexSilenceDifuser 0 (25/98) 2).2
      0 (25/98) 2).2 0 (25/98) 2).2 0 (25/98) 2).2 0 (25/98) 2).1 = -3/500 := by
  norm_num [ProcessSample, stageLoop, processStage, densityClamp, dryMixCode,
    outScale, N_STAGES, CircularBuffer.ReadFactor, CircularBuffer.ReadDelay,
    CircularBuffer.readIndices, CircularBuffer.factorDelay, cppTrunc,
    CircularBuffer.getSampleZ, CircularBuffer.WriteSample, CircularBuffer.cleared,
    cexSilenceDifuser]
  all_goals simp
  all_goals norm_num

/-- With both coefficient fields 0, the follower tracks `|in|` exactly. -/
lemma process_coef_zero (e x : ℝ) :
    EnvelopeFollower.process ⟨e, 0, 0⟩ x = (|x|, ⟨|x|, 0, 0⟩) := by
  simp only [EnvelopeFollower.process]
  split_ifs <;> simp

/-- One channel step of the counterexample on a zero input, in closed
form: the output is `dynamicMix · wet` and the state advances. -/
lemma cexSilence_step (d : DifuserState) (e : ℝ) :
    processSampleChannel cexSilenceParams ⟨d, ⟨e, 0, 0⟩⟩ 0
    = (dynamicMixCalc (gainToDecibels |((ProcessSample d 0 (25/98) 2).1 : ℝ)|)
          (-60) * ((ProcessSample d 0 (25/98) 2).1 : ℝ),
       ⟨(ProcessSample d 0 (25/98) 2).2,
        ⟨|((ProcessSample d 0 (25/98) 2).1 : ℝ)|, 0, 0⟩⟩) := by
  simp only [processSampleChannel, cexSilenceParams, process_coef_zero]
  simp only [Prod.mk.injEq]
  constructor
  · push_cast
    ring
  · trivial

/-- The dynamic mix ratio saturates at 1 for a wet sample of magnitude
`0.006` against the −60 dB threshold: `20·log10(0.006) ≥ −48`, i.e. it
is at least 12 dB above the threshold. -/
lemma cexSilence_dynamicMix_one :
    dynamicMixCalc (gainToDecibels |((-3/500 : ℚ) : ℝ)|) (-60 : ℝ) = 1 := by
  have habs : |((-3/500 : ℚ) : ℝ)| = (3/500 : ℝ) := by
    push_cast
    rw [abs_of_neg (by norm_num)]
    norm_num
  have hlog10 : 0 < Real.log 10 := Real.log_pos (by norm_num)
  have hpow : ((1 : ℝ)/10^12) ≤ ((3 : ℝ)/500)^5 := by norm_num
  have hlogle := Real.log_le_log (by positivity) hpow
  rw [one_div, Real.log_inv, Real.log_pow, Real.log_pow] at hlogle
  have hkey : -(12 * Real.log 10) ≤ 5 * Real.log (3/500) := by
    push_cast at hlogle
    linarith
  have hX : (-48 : ℝ) ≤ Real.log (3/500) / Real.log 10 * 20 := by
    rw [div_mul_eq_mul_div, le_div_iff hlog10]
    nlinarith
  have hgtd : gainToDecibels (3/500) = Real.log (3/500) / Real.log 10 * 20 := by
    rw [gainToDecibels, if_pos (by norm_num)]
    exact max_eq_right (by linarith)
  rw [habs, hgtd, dynamicMixCalc, if_pos (by linarith)]
  refine min_eq_right ?_
  rw [le_div_iff (by norm_num : (0:ℝ) < 12)]
  linarith

/-- C3 counterexample: the all-zero block of length 5, fed through the
channel pipeline after `Clear()`, does **not** come out all-zero: the
fifth output sample is `−0.006` (the ±0.1 seed offsets re-emerge and the
envelope-driven mix passes them through). -/
theorem silenceInOut_cex :
    (processBlockChannel cexSilenceParams cexSilenceState
        (List.replicate 5 0)).1 ≠ List.replicate 5 (0 : ℝ) := by
  obtain ⟨h0, h1, h2, h3, h4⟩ := cexSilence_wets
  have hrep : List.replicate 5 (0 : ℚ) = [0, 0, 0, 0, 0] := rfl
  rw [hrep]
  simp only [processBlockChannel, cexSilenceState, cexSilence_step,
    h0, h1, h2, h3, h4]
  simp only [Rat.cast_zero, abs_zero, mul_zero]
  rw [cexSilence_dynamicMix_one]
  have hrep' : List.replicate 5 (0 : ℝ) = [0, 0, 0, 0, 0] := rfl
  rw [hrep']
  simp only [ne_eq, List.cons.injEq, and_true, true_and]
  push_cast
  norm_num

/-- Witness for C10: with `density = 3`, stage 5 is untouched. -/
theorem processSample_frame_witness :
    (densityClamp 3).toNat ≤ 5 ∧
    (ProcessSample (fun _ _ => CircularBuffer.cleared 3) 1 0 3).2 5 0
      = CircularBuffer.cleared 3 :=
  ⟨by simp [densityClamp, N_STAGES],
   processSample_frame (fun _ _ => CircularBuffer.cleared 3) 1 0 3 5 0
     (by simp [densityClamp, N_STAGES])⟩

end Difuser
